import Mathlib

/-!
Verification of the candlestick-pattern / extremum-level pipeline.

This file gives a shallow embedding of the core pipeline of
`Candlestick-patterns-with-extr-levels-optimizing.py`:
level detection from local extrema (`find_extreme_levels`, built on
scipy's `argrelextrema` with its default clip mode), pattern/level
classification (`check_pattern_levels`), forward outcome simulation
(`analyze_pattern_performance`), accuracy aggregation
(`calculate_average_accuracy`), per-candle result production
(`process_crypto_data`), the CSV report rows, the best-so-far fold of
the grid search, and the error behaviour of the chart/report side
effects.  Prices are embedded as rationals, times as integers.
-/

/-- Fixed parameter of the script: minimal required accuracy (%) for a
result to be kept (chart-worthy). -/
def MIN_ACCURACY_THRESHOLD : ℚ := 60

/-- Fixed parameter of the script: minimal number of predictions for a
reliable accuracy estimate. -/
def MIN_PREDICTIONS_COUNT : ℕ := 3

/-- One OHLCV bar of the series (a row of the `crypto` dataframe). -/
structure Bar where
  time : ℤ
  open_ : ℚ
  high : ℚ
  low : ℚ
  close : ℚ
  volume : ℚ
deriving DecidableEq

instance : Inhabited Bar := ⟨⟨0, 0, 0, 0, 0, 0⟩⟩

/-- The bar at position `i` (out-of-range reads give the default bar;
the source only ever reads in-range positions). -/
def barAt (data : List Bar) (i : ℕ) : Bar := data.getD i default

/-- `scipy.signal.argrelextrema(prices, np.greater, order)` membership
test at index `i`.  scipy's default take mode is `clip`: the neighbour
index `i + shift` is clamped to `n - 1` and `i - shift` to `0` (natural
subtraction performs the low clamp).  `i` is a relative maximum when its
price strictly exceeds every (clamped) neighbour at distances
`1 … order` on both sides. -/
def isRelMax (prices : List ℚ) (order : ℕ) (i : ℕ) : Bool :=
  (List.range order).all fun s =>
    let n := prices.length
    let plus := prices.getD (min (i + (s + 1)) (n - 1)) 0
    let minus := prices.getD (i - (s + 1)) 0
    decide (plus < prices.getD i 0) && decide (minus < prices.getD i 0)

/-- `argrelextrema(prices, np.less, order)` membership test at `i`,
with the same clip-mode neighbour indexing. -/
def isRelMin (prices : List ℚ) (order : ℕ) (i : ℕ) : Bool :=
  (List.range order).all fun s =>
    let n := prices.length
    let plus := prices.getD (min (i + (s + 1)) (n - 1)) 0
    let minus := prices.getD (i - (s + 1)) 0
    decide (prices.getD i 0 < plus) && decide (prices.getD i 0 < minus)

/-- Absolute value on ℚ, written out so that concrete evaluation
reduces in the kernel; agrees with `|·|`. -/
def ratAbs (x : ℚ) : ℚ := if x < 0 then -x else x

lemma ratAbs_eq_abs (x : ℚ) : ratAbs x = |x| := by
  unfold ratAbs
  rcases lt_or_ge x 0 with h | h
  · rw [if_pos h, abs_of_neg h]
  · rw [if_neg (not_lt.mpr h), abs_of_nonneg h]

/-- Number of bars of the whole series whose close lies strictly within
`level * touch_threshold / 100` of `level`
(`(data['close'] - level).abs().lt(level * touch_threshold / 100).sum()`). -/
def touchCount (data : List Bar) (level : ℚ) (touch_threshold : ℚ) : ℕ :=
  (data.filter fun b => decide (ratAbs (b.close - level) < level * touch_threshold / 100)).length

/-- `find_extreme_levels(data, order, min_touches, touch_threshold)`:
collect the closes/times of the relative extrema of the close series,
then keep only the levels touched at least `min_touches` times.
Returns `(support_levels, resistance_levels)`, each a list of
`(price, formation_time)` pairs. -/
def find_extreme_levels (data : List Bar) (order min_touches : ℕ)
    (touch_threshold : ℚ) : List (ℚ × ℤ) × List (ℚ × ℤ) :=
  let prices := data.map Bar.close
  let max_idx := (List.range data.length).filter (isRelMax prices order)
  let min_idx := (List.range data.length).filter (isRelMin prices order)
  let resistance_levels := max_idx.map fun i => ((barAt data i).close, (barAt data i).time)
  let support_levels := min_idx.map fun i => ((barAt data i).close, (barAt data i).time)
  (support_levels.filter fun lv => decide (min_touches ≤ touchCount data lv.1 touch_threshold),
   resistance_levels.filter fun lv => decide (min_touches ≤ touchCount data lv.1 touch_threshold))

/-- A relative maximum is never the very first bar: its distance-1 left
neighbour index clips to the bar itself and the strict comparison fails. -/
lemma isRelMax_pos {prices : List ℚ} {order i : ℕ}
    (horder : 1 ≤ order) (h : isRelMax prices order i = true) : 0 < i := by
  by_contra hi
  push_neg at hi
  interval_cases i
  have h0 := (List.all_eq_true.mp h) 0 (List.mem_range.mpr horder)
  simp only [Bool.and_eq_true, decide_eq_true_eq] at h0
  exact absurd h0.2 (by simp)

/-- A relative maximum is never the very last bar: its distance-1 right
neighbour index clips to the bar itself and the strict comparison fails. -/
lemma isRelMax_lt_last {prices : List ℚ} {order i : ℕ}
    (horder : 1 ≤ order) (hi : i < prices.length)
    (h : isRelMax prices order i = true) : i + 1 < prices.length := by
  rcases Nat.lt_or_ge (i + 1) prices.length with hlt | hge
  · exact hlt
  · exfalso
    have hieq : i = prices.length - 1 := by omega
    have h0 := (List.all_eq_true.mp h) 0 (List.mem_range.mpr horder)
    simp only [Bool.and_eq_true, decide_eq_true_eq] at h0
    have hmin : min (i + 1) (prices.length - 1) = i := by omega
    rw [hmin] at h0
    exact absurd h0.1 (by simp)

/-- Mirror of `isRelMax_pos` for relative minima. -/
lemma isRelMin_pos {prices : List ℚ} {order i : ℕ}
    (horder : 1 ≤ order) (h : isRelMin prices order i = true) : 0 < i := by
  by_contra hi
  push_neg at hi
  interval_cases i
  have h0 := (List.all_eq_true.mp h) 0 (List.mem_range.mpr horder)
  simp only [Bool.and_eq_true, decide_eq_true_eq] at h0
  exact absurd h0.2 (by simp)

/-- Mirror of `isRelMax_lt_last` for relative minima. -/
lemma isRelMin_lt_last {prices : List ℚ} {order i : ℕ}
    (horder : 1 ≤ order) (hi : i < prices.length)
    (h : isRelMin prices order i = true) : i + 1 < prices.length := by
  rcases Nat.lt_or_ge (i + 1) prices.length with hlt | hge
  · exact hlt
  · exfalso
    have hieq : i = prices.length - 1 := by omega
    have h0 := (List.all_eq_true.mp h) 0 (List.mem_range.mpr horder)
    simp only [Bool.and_eq_true, decide_eq_true_eq] at h0
    have hmin : min (i + 1) (prices.length - 1) = i := by omega
    rw [hmin] at h0
    exact absurd h0.1 (by simp)

/-- Concrete six-bar series used to exercise the level detector near
the series boundary: closes `0, 5, 1, 1, 1, 1`. -/
def exBoundary : List Bar :=
  [⟨0, 0, 0, 0, 0, 0⟩, ⟨1, 5, 5, 5, 5, 0⟩, ⟨2, 1, 1, 1, 1, 0⟩,
   ⟨3, 1, 1, 1, 1, 0⟩, ⟨4, 1, 1, 1, 1, 0⟩, ⟨5, 1, 1, 1, 1, 0⟩]

lemma exBoundary_touch : 1 ≤ touchCount exBoundary 5 1 := by
  have hmem : (⟨1, 5, 5, 5, 5, 0⟩ : Bar) ∈ exBoundary.filter
      (fun b => decide (ratAbs (b.close - 5) < 5 * 1 / 100)) := by
    rw [List.mem_filter]
    refine ⟨by decide, ?_⟩
    rw [decide_eq_true_eq]
    norm_num [ratAbs]
  exact List.length_pos_of_mem hmem

lemma exBoundary_max_idx :
    (List.range exBoundary.length).filter (isRelMax (exBoundary.map Bar.close) 2) = [1] := by
  decide

lemma exBoundary_res_mem : ((5 : ℚ), (1 : ℤ)) ∈ (find_extreme_levels exBoundary 2 1 1).2 := by
  unfold find_extreme_levels
  rw [List.mem_filter]
  constructor
  · rw [exBoundary_max_idx]
    simp only [List.map_cons, List.map_nil, List.mem_singleton]
    decide
  · rw [decide_eq_true_eq]
    exact exBoundary_touch

/-- C1 counterexample: with window half-width `w = 2`, the bar at index
`1` — strictly within `w` of the left series boundary — is accepted as a
relative maximum (scipy's clip mode compares it against the clamped
neighbour `0` twice), survives the touch filter, and its level is
returned; so a returned level's source bar index does lie within `w` of
the series boundary. -/
theorem C1_counterexample :
    ((5 : ℚ), (1 : ℤ)) ∈ (find_extreme_levels exBoundary 2 1 1).2 ∧
    ¬ (∀ i ∈ (List.range exBoundary.length).filter (isRelMax (exBoundary.map Bar.close) 2),
        2 ≤ i ∧ i + 2 < exBoundary.length) := by
  refine ⟨exBoundary_res_mem, ?_⟩
  intro h
  have h1 := h 1 (by rw [exBoundary_max_idx]; exact List.mem_singleton.mpr rfl)
  omega

/-- C1 (amended): every level returned by `find_extreme_levels` (with a
positive window, as scipy requires `order ≥ 1`) originates from a bar
that is neither the first nor the last bar of the series; bars strictly
inside the series but within `w` of a boundary may still qualify,
because the neighbour window is clipped at the series edges. -/
theorem C1_level_sources (data : List Bar) (order min_touches : ℕ)
    (touch_threshold : ℚ) (horder : 1 ≤ order) :
    ∀ lv ∈ (find_extreme_levels data order min_touches touch_threshold).1 ++
           (find_extreme_levels data order min_touches touch_threshold).2,
      ∃ i, 0 < i ∧ i + 1 < data.length ∧
        lv = ((barAt data i).close, (barAt data i).time) := by
  intro lv hlv
  rw [List.mem_append] at hlv
  have hlen : (data.map Bar.close).length = data.length := by simp
  rcases hlv with hs | hr
  · unfold find_extreme_levels at hs
    simp only [List.mem_filter, List.mem_map, List.mem_range] at hs
    obtain ⟨⟨i, hi, hlv⟩, _⟩ := hs
    refine ⟨i, isRelMin_pos horder hi.2, ?_, hlv.symm⟩
    have := isRelMin_lt_last horder (by rw [hlen]; exact hi.1) hi.2
    omega
  · unfold find_extreme_levels at hr
    simp only [List.mem_filter, List.mem_map, List.mem_range] at hr
    obtain ⟨⟨i, hi, hlv⟩, _⟩ := hr
    refine ⟨i, isRelMax_pos horder hi.2, ?_, hlv.symm⟩
    have := isRelMax_lt_last horder (by rw [hlen]; exact hi.1) hi.2
    omega

/-- C1 witness: on the concrete boundary series with `w = 2`, the sole
returned resistance level originates from bar `1`, which indeed is
neither the first nor the last bar. -/
theorem C1_level_sources_witness :
    (1 : ℕ) ≤ 2 ∧
    ∃ i, 0 < i ∧ i + 1 < exBoundary.length ∧
      ((5 : ℚ), (1 : ℤ)) = ((barAt exBoundary i).close, (barAt exBoundary i).time) :=
  ⟨by decide,
    C1_level_sources exBoundary 2 1 1 (by decide) ((5 : ℚ), (1 : ℤ))
      (by rw [List.mem_append]; right; exact exBoundary_res_mem)⟩

/-- `p in s` on character lists: does `s` start with `p`? (helper). -/
def listStartsWith : List Char → List Char → Bool
  | [], _ => true
  | _ :: _, [] => false
  | p :: ps, c :: cs => decide (p = c) && listStartsWith ps cs

/-- Python's substring test `pat in s` on character lists. -/
def containsSub (pat : List Char) : List Char → Bool
  | [] => pat.isEmpty
  | c :: cs => listStartsWith pat (c :: cs) || containsSub pat cs

/-- The per-level qualification test of `check_pattern_levels`:
`abs(price - level) / price < level_proximity_threshold / 100 and time > level_time`. -/
def levelHit (price : ℚ) (time : ℤ) (level_proximity_threshold : ℚ) (lv : ℚ × ℤ) : Bool :=
  decide (ratAbs (price - lv.1) / price < level_proximity_threshold / 100) &&
  decide (lv.2 < time)

/-- The `for … break` loop over a level list: the first level that
qualifies, if any. -/
def firstHit (price : ℚ) (time : ℤ) (p : ℚ) : List (ℚ × ℤ) → Option (ℚ × ℤ)
  | [] => none
  | lv :: rest => if levelHit price time p lv then some lv else firstHit price time p rest

/-- The result dictionary of `check_pattern_levels`. -/
structure CheckResults where
  standard_bull : Bool
  standard_bear : Bool
  logical_bull : Bool
  logical_bear : Bool
deriving DecidableEq

/-- `check_pattern_levels(price, time, support_levels, resistance_levels,
level_proximity_threshold)`: the support loop sets `standard_bull` and
`logical_bear` (stopping at the first qualifying support level), the
resistance loop sets `standard_bear` and `logical_bull`. -/
def check_pattern_levels (price : ℚ) (time : ℤ)
    (support_levels resistance_levels : List (ℚ × ℤ))
    (level_proximity_threshold : ℚ) : CheckResults :=
  let nearSup := (firstHit price time level_proximity_threshold support_levels).isSome
  let nearRes := (firstHit price time level_proximity_threshold resistance_levels).isSome
  { standard_bull := nearSup, standard_bear := nearRes,
    logical_bull := nearRes, logical_bear := nearSup }

/-- The first qualifying level exists exactly when some level qualifies. -/
lemma firstHit_isSome_iff (price : ℚ) (time : ℤ) (p : ℚ) (ls : List (ℚ × ℤ)) :
    (firstHit price time p ls).isSome = true ↔ ∃ lv ∈ ls, levelHit price time p lv = true := by
  induction ls with
  | nil => simp [firstHit]
  | cons lv rest ih =>
    by_cases h : levelHit price time p lv = true
    · simp [firstHit, h]
    · simp only [firstHit, h, Bool.false_eq_true, if_false, ih, List.mem_cons]
      constructor
      · rintro ⟨x, hx, hhit⟩
        exact ⟨x, Or.inr hx, hhit⟩
      · rintro ⟨x, hx | hx, hhit⟩
        · exact absurd (hx ▸ hhit) h
        · exact ⟨x, hx, hhit⟩

/-- A qualifying level's formation time is strictly before the occurrence. -/
lemma levelHit_time_lt {price : ℚ} {time : ℤ} {p : ℚ} {lv : ℚ × ℤ}
    (h : levelHit price time p lv = true) : lv.2 < time := by
  unfold levelHit at h
  rw [Bool.and_eq_true, decide_eq_true_eq, decide_eq_true_eq] at h
  exact h.2

/-- C5: an occurrence can be flagged as near a support/resistance level
only when some level of that set was formed strictly earlier than the
occurrence's time; and a level whose formation time equals the
occurrence's time never qualifies (the boundary is strict). -/
theorem C5_strict_causality (price : ℚ) (time : ℤ) (p : ℚ)
    (support_levels resistance_levels : List (ℚ × ℤ)) :
    ((check_pattern_levels price time support_levels resistance_levels p).standard_bull = true →
      ∃ lv ∈ support_levels, levelHit price time p lv = true ∧ lv.2 < time) ∧
    ((check_pattern_levels price time support_levels resistance_levels p).standard_bear = true →
      ∃ lv ∈ resistance_levels, levelHit price time p lv = true ∧ lv.2 < time) ∧
    (∀ lv ∈ support_levels ++ resistance_levels, lv.2 = time →
      levelHit price time p lv = false) := by
  refine ⟨?_, ?_, ?_⟩
  · intro h
    obtain ⟨lv, hmem, hhit⟩ := (firstHit_isSome_iff price time p support_levels).mp h
    exact ⟨lv, hmem, hhit, levelHit_time_lt hhit⟩
  · intro h
    obtain ⟨lv, hmem, hhit⟩ := (firstHit_isSome_iff price time p resistance_levels).mp h
    exact ⟨lv, hmem, hhit, levelHit_time_lt hhit⟩
  · intro lv _ heq
    unfold levelHit
    rw [Bool.and_eq_false_iff]
    right
    rw [decide_eq_false_iff_not]
    omega

/-- C5 witness: at price 100, time 5, threshold 2%, a support level
(100, 1) formed earlier does qualify, while a level formed exactly at
time 5 does not. -/
theorem C5_strict_causality_witness :
    (∃ lv ∈ [((100 : ℚ), (1 : ℤ))], levelHit 100 5 2 lv = true ∧ lv.2 < 5) ∧
    levelHit 100 5 2 ((100 : ℚ), (5 : ℤ)) = false := by
  have h := C5_strict_causality 100 5 2 [((100 : ℚ), (1 : ℤ))] [((100 : ℚ), (5 : ℤ))]
  refine ⟨h.1 ?_, h.2.2 ((100 : ℚ), (5 : ℤ)) (by simp) rfl⟩
  show (firstHit 100 5 2 [((100 : ℚ), (1 : ℤ))]).isSome = true
  have hhit : levelHit 100 5 2 ((100 : ℚ), (1 : ℤ)) = true := by
    unfold levelHit
    rw [Bool.and_eq_true, decide_eq_true_eq, decide_eq_true_eq]
    constructor
    · norm_num [ratAbs]
    · omega
  simp [firstHit, hhit]

/-- `pattern_type` categories assigned by `process_crypto_data`
(`"standard"`, `"logical_bull"`, `"logical_bear"`, or `""`). -/
inductive Category where
  | standard
  | logical_bull
  | logical_bear
  | noneCat
deriving DecidableEq

/-- A row of the `crypto` dataframe after pattern detection: its bar
and the `candlestick_pattern` string (empty when no pattern fired). -/
structure Row where
  bar : Bar
  candlestick_pattern : List Char
deriving DecidableEq

/-- The `"_Bull"` suffix tested by `is_bull = "_Bull" in row['candlestick_pattern']`. -/
def suffixBull : List Char := ['_', 'B', 'u', 'l', 'l']

/-- The `"_Bear"` suffix tested by `is_bear = "_Bear" in row['candlestick_pattern']`. -/
def suffixBear : List Char := ['_', 'B', 'e', 'a', 'r']

/-- The per-row classification of `process_crypto_data`: rows without a
fired pattern stay unclassified; otherwise the `check_pattern_levels`
flags are combined in the source's if/elif priority order. -/
def rowCategory (support_levels resistance_levels : List (ℚ × ℤ))
    (level_proximity_threshold : ℚ) (r : Row) : Category :=
  if r.candlestick_pattern.isEmpty then Category.noneCat
  else
    let check_results := check_pattern_levels r.bar.close r.bar.time
      support_levels resistance_levels level_proximity_threshold
    let is_bull := containsSub suffixBull r.candlestick_pattern
    let is_bear := containsSub suffixBear r.candlestick_pattern
    if (is_bull && check_results.standard_bull) || (is_bear && check_results.standard_bear) then
      Category.standard
    else if is_bull && check_results.logical_bull then Category.logical_bull
    else if is_bear && check_results.logical_bear then Category.logical_bear
    else Category.noneCat

/-- Being near a level set, as the specification words it: some level of
the set, reachable as the first qualifying one in iteration order, has
formation time strictly before the occurrence and relative distance
strictly below `p / 100`. -/
def specNear (price : ℚ) (time : ℤ) (p : ℚ) (levels : List (ℚ × ℤ)) : Prop :=
  ∃ lv ∈ levels, ratAbs (price - lv.1) / price < p / 100 ∧ lv.2 < time

instance (price : ℚ) (time : ℤ) (p : ℚ) (levels : List (ℚ × ℤ)) :
    Decidable (specNear price time p levels) := by
  unfold specNear
  infer_instance

/-- The category the specification describes, tested in its priority
order: standard (bull near support or bear near resistance) first, else
logical_bull (bull near resistance), else logical_bear (bear near
support), else none. -/
def specCategoryOf (support_levels resistance_levels : List (ℚ × ℤ))
    (p : ℚ) (r : Row) : Category :=
  if r.candlestick_pattern.isEmpty then Category.noneCat
  else
    let bull := containsSub suffixBull r.candlestick_pattern = true
    let bear := containsSub suffixBear r.candlestick_pattern = true
    let nearSup := specNear r.bar.close r.bar.time p support_levels
    let nearRes := specNear r.bar.close r.bar.time p resistance_levels
    if (bull ∧ nearSup) ∨ (bear ∧ nearRes) then Category.standard
    else if bull ∧ nearRes then Category.logical_bull
    else if bear ∧ nearSup then Category.logical_bear
    else Category.noneCat

/-- The support/resistance loop outcome coincides with the spec's
"some earlier-formed level strictly within the threshold" predicate. -/
lemma firstHit_isSome_eq_specNear (price : ℚ) (time : ℤ) (p : ℚ) (ls : List (ℚ × ℤ)) :
    (firstHit price time p ls).isSome = true ↔ specNear price time p ls := by
  rw [firstHit_isSome_iff]
  unfold specNear levelHit
  constructor
  · rintro ⟨lv, hmem, hhit⟩
    rw [Bool.and_eq_true, decide_eq_true_eq, decide_eq_true_eq] at hhit
    exact ⟨lv, hmem, hhit⟩
  · rintro ⟨lv, hmem, hhit⟩
    refine ⟨lv, hmem, ?_⟩
    rw [Bool.and_eq_true, decide_eq_true_eq, decide_eq_true_eq]
    exact hhit

/-- C6: every pattern occurrence receives exactly one category, decided
in the source's priority order — standard first, else logical_bull, else
logical_bear, else none — where "near" a level set means the first level
in iteration order (not necessarily the nearest) formed strictly earlier
and strictly within the relative-distance threshold. -/
theorem C6_priority_classification (support_levels resistance_levels : List (ℚ × ℤ))
    (p : ℚ) (r : Row) :
    rowCategory support_levels resistance_levels p r =
      specCategoryOf support_levels resistance_levels p r := by
  unfold rowCategory specCategoryOf
  cases hemp : r.candlestick_pattern.isEmpty
  · simp only [Bool.false_eq_true, if_false]
    have hs := firstHit_isSome_eq_specNear r.bar.close r.bar.time p support_levels
    have hr := firstHit_isSome_eq_specNear r.bar.close r.bar.time p resistance_levels
    show (if (_ && (check_pattern_levels _ _ _ _ _).standard_bull ||
              (_ && (check_pattern_levels _ _ _ _ _).standard_bear)) = true then _ else _) = _
    unfold check_pattern_levels
    cases hbull : containsSub suffixBull r.candlestick_pattern <;>
      cases hbear : containsSub suffixBear r.candlestick_pattern <;>
      cases hfs : (firstHit r.bar.close r.bar.time p support_levels).isSome <;>
      cases hfr : (firstHit r.bar.close r.bar.time p resistance_levels).isSome <;>
      simp_all
  · simp

/-- The `"Bull"` substring tested by `if "Bull" in pattern_type`. -/
def bullStr : List Char := ['B', 'u', 'l', 'l']

/-- The `"Bear"` substring tested by `elif "Bear" in pattern_type`. -/
def bearStr : List Char := ['B', 'e', 'a', 'r']

/-- The future-bar loop of the bullish branch: fail as soon as a bar's
low drops strictly below the stop price (checked first), succeed as soon
as a bar's high reaches the target price, fail when the bars run out. -/
def bullScan (min_price_threshold target_price : ℚ) : List Bar → Bool
  | [] => false
  | b :: rest =>
    if b.low < min_price_threshold then false
    else if target_price ≤ b.high then true
    else bullScan min_price_threshold target_price rest

/-- The future-bar loop of the bearish branch: fail as soon as a bar's
high rises strictly above the stop price (checked first), succeed as
soon as a bar's low reaches the target price, fail when the bars run
out. -/
def bearScan (max_price_threshold target_price : ℚ) : List Bar → Bool
  | [] => false
  | b :: rest =>
    if max_price_threshold < b.high then false
    else if b.low ≤ target_price then true
    else bearScan max_price_threshold target_price rest

/-- `analyze_pattern_performance(data, pattern_row, pattern_type,
target_percent, stop_percent)`: scan the bars strictly after the
pattern's row; bullish when `"Bull"` occurs in the type string, bearish
when `"Bear"` does; empty future data, an exhausted scan, or an
unrecognized type string all yield failure. -/
def analyze_pattern_performance (data : List Bar) (pattern_idx : ℕ) (pattern_price : ℚ)
    (pattern_type : List Char) (target_percent stop_percent : ℚ) : Bool :=
  let future_data := data.drop (pattern_idx + 1)
  if future_data.isEmpty then false
  else if containsSub bullStr pattern_type then
    bullScan (pattern_price * (1 - stop_percent / 100))
      (pattern_price * (1 + target_percent / 100)) future_data
  else if containsSub bearStr pattern_type then
    bearScan (pattern_price * (1 + stop_percent / 100))
      (pattern_price * (1 - target_percent / 100)) future_data
  else false

/-- The reference scan of the claim, bullish side: find the first
decisive future bar (stop pierced or target reached); the outcome is
success only if that bar did not pierce the stop — the stop is checked
first even when the same bar also reaches the target.  No decisive bar
means failure. -/
def specScanBull (stop_price target_price : ℚ) (future : List Bar) : Bool :=
  match future.find? (fun b => decide (b.low < stop_price) || decide (target_price ≤ b.high)) with
  | some b => ! decide (b.low < stop_price)
  | none => false

/-- Mirrored reference scan for bearish patterns: stop is a strict rise
above the stop price, target is a low at or below the target price. -/
def specScanBear (stop_price target_price : ℚ) (future : List Bar) : Bool :=
  match future.find? (fun b => decide (stop_price < b.high) || decide (b.low ≤ target_price)) with
  | some b => ! decide (stop_price < b.high)
  | none => false

lemma bullScan_eq_specScanBull (stop_price target_price : ℚ) (future : List Bar) :
    bullScan stop_price target_price future = specScanBull stop_price target_price future := by
  induction future with
  | nil => rfl
  | cons b rest ih =>
    by_cases hstop : b.low < stop_price
    · simp [bullScan, specScanBull, hstop, List.find?_cons]
    · by_cases htgt : target_price ≤ b.high
      · simp [bullScan, specScanBull, hstop, htgt, List.find?_cons]
      · simp only [bullScan, specScanBull, List.find?_cons, hstop, htgt, decide_False,
          Bool.false_or, if_false, decide_True] at ih ⊢
        exact ih

lemma bearScan_eq_specScanBear (stop_price target_price : ℚ) (future : List Bar) :
    bearScan stop_price target_price future = specScanBear stop_price target_price future := by
  induction future with
  | nil => rfl
  | cons b rest ih =>
    by_cases hstop : stop_price < b.high
    · simp [bearScan, specScanBear, hstop, List.find?_cons]
    · by_cases htgt : b.low ≤ target_price
      · simp [bearScan, specScanBear, hstop, htgt, List.find?_cons]
      · simp only [bearScan, specScanBear, List.find?_cons, hstop, htgt, decide_False,
          Bool.false_or, if_false, decide_True] at ih ⊢
        exact ih

/-- C2: for bullish pattern types the simulator returns exactly the
reference scan over the bars strictly after the occurrence (stop checked
first with a strict low comparison, target at-or-above, exhaustion or no
future bars = failure), and for bearish types the mirrored scan. -/
theorem C2_outcome_reference_scan (data : List Bar) (pattern_idx : ℕ) (pattern_price : ℚ)
    (pattern_type : List Char) (target_percent stop_percent : ℚ) :
    (containsSub bullStr pattern_type = true →
      analyze_pattern_performance data pattern_idx pattern_price pattern_type
          target_percent stop_percent =
        specScanBull (pattern_price * (1 - stop_percent / 100))
          (pattern_price * (1 + target_percent / 100)) (data.drop (pattern_idx + 1))) ∧
    (containsSub bullStr pattern_type = false → containsSub bearStr pattern_type = true →
      analyze_pattern_performance data pattern_idx pattern_price pattern_type
          target_percent stop_percent =
        specScanBear (pattern_price * (1 + stop_percent / 100))
          (pattern_price * (1 - target_percent / 100)) (data.drop (pattern_idx + 1))) := by
  constructor
  · intro hbull
    unfold analyze_pattern_performance
    cases hemp : (data.drop (pattern_idx + 1)).isEmpty
    · simp only [hemp, Bool.false_eq_true, if_false, hbull, if_true]
      exact bullScan_eq_specScanBull _ _ _
    · rw [List.isEmpty_iff] at hemp
      simp [hemp, specScanBull]
  · intro hbull hbear
    unfold analyze_pattern_performance
    cases hemp : (data.drop (pattern_idx + 1)).isEmpty
    · simp only [hemp, Bool.false_eq_true, if_false, hbull, hbear, if_true]
      exact bearScan_eq_specScanBear _ _ _
    · rw [List.isEmpty_iff] at hemp
      simp [hemp, specScanBear]

/-- Concrete two-bar future series for the simulator witnesses. -/
def exFuture : List Bar :=
  [⟨0, 100, 100, 100, 100, 0⟩, ⟨1, 100, 106, 99, 100, 0⟩, ⟨2, 100, 106, 99, 100, 0⟩]

/-- C2 witness: the equivalence instantiated at the concrete series for
a bullish type string `"Bull"` and a bearish type string `"L_Bear"`. -/
theorem C2_outcome_reference_scan_witness :
    (analyze_pattern_performance exFuture 0 100 bullStr 5 2 =
      specScanBull (100 * (1 - 2 / 100)) (100 * (1 + 5 / 100)) (exFuture.drop 1)) ∧
    (analyze_pattern_performance exFuture 0 100 (['L', '_'] ++ bearStr) 5 2 =
      specScanBear (100 * (1 + 2 / 100)) (100 * (1 - 5 / 100)) (exFuture.drop 1)) :=
  ⟨(C2_outcome_reference_scan exFuture 0 100 bullStr 5 2).1 (by decide),
   (C2_outcome_reference_scan exFuture 0 100 (['L', '_'] ++ bearStr) 5 2).2
     (by decide) (by decide)⟩

/-- C9: the simulator is total in the pattern-type string — a type that
contains neither `"Bull"` nor `"Bear"` produces failure (`false`), with
no error. -/
theorem C9_total_in_pattern_type (data : List Bar) (pattern_idx : ℕ) (pattern_price : ℚ)
    (pattern_type : List Char) (target_percent stop_percent : ℚ)
    (hbull : containsSub bullStr pattern_type = false)
    (hbear : containsSub bearStr pattern_type = false) :
    analyze_pattern_performance data pattern_idx pattern_price pattern_type
      target_percent stop_percent = false := by
  unfold analyze_pattern_performance
  cases hemp : (data.drop (pattern_idx + 1)).isEmpty <;>
    simp [hbull, hbear]

/-- C9 witness: the empty type string on a nonempty future series. -/
theorem C9_total_in_pattern_type_witness :
    analyze_pattern_performance exFuture 0 100 [] 5 2 = false :=
  C9_total_in_pattern_type exFuture 0 100 [] 5 2 (by decide) (by decide)

/-- One category's counters `{'total': …, 'success': …}`. -/
structure CatStats where
  total : ℕ
  success : ℕ
deriving DecidableEq

/-- The `pattern_stats` dictionary: counters for the four categories
`Bull, Bear, L_Bull, L_Bear`, in the source's insertion order. -/
structure PatternStats where
  bull : CatStats
  bear : CatStats
  lbull : CatStats
  lbear : CatStats
deriving DecidableEq

/-- The dictionary's values in iteration (= insertion) order. -/
def statsList (ps : PatternStats) : List CatStats :=
  [ps.bull, ps.bear, ps.lbull, ps.lbear]

/-- The accumulation step of `calculate_average_accuracy`'s loop: a
category contributes its success and total counts only when its total
is positive. -/
def accStep (acc : ℕ × ℕ) (s : CatStats) : ℕ × ℕ :=
  if 0 < s.total then (acc.1 + s.success, acc.2 + s.total) else acc

/-- `calculate_average_accuracy(pattern_stats)`: overall success ratio
(in percent) over all categories with activity, forced to `0` when the
number of predictions is below `MIN_PREDICTIONS_COUNT`; the raw total is
returned alongside in both cases. -/
def calculate_average_accuracy (ps : PatternStats) : ℚ × ℕ :=
  let totals := (statsList ps).foldl accStep (0, 0)
  if MIN_PREDICTIONS_COUNT ≤ totals.2 then
    (((totals.1 : ℚ) / (totals.2 : ℚ)) * 100, totals.2)
  else (0, totals.2)

/-- Unguarded success sum over the four categories. -/
def sumSuccess (ps : PatternStats) : ℕ := ((statsList ps).map CatStats.success).sum

/-- Unguarded total sum over the four categories. -/
def sumTotal (ps : PatternStats) : ℕ := ((statsList ps).map CatStats.total).sum

/-- On any list of counters with `success ≤ total` per entry, the
guarded accumulation computes the plain sums: entries with `total = 0`
contribute nothing to either side. -/
lemma foldl_accStep_eq (l : List CatStats) (h : ∀ s ∈ l, s.success ≤ s.total) :
    ∀ a b : ℕ, l.foldl accStep (a, b) =
      (a + (l.map CatStats.success).sum, b + (l.map CatStats.total).sum) := by
  induction l with
  | nil => intro a b; simp
  | cons s t ih =>
    intro a b
    have hs := h s (List.mem_cons_self s t)
    have ht : ∀ x ∈ t, x.success ≤ x.total := fun x hx => h x (List.mem_cons_of_mem s hx)
    by_cases hpos : 0 < s.total
    · rw [List.foldl_cons]
      show t.foldl accStep (accStep (a, b) s) = _
      rw [show accStep (a, b) s = (a + s.success, b + s.total) from if_pos hpos]
      rw [ih ht]
      simp only [List.map_cons, List.sum_cons, Prod.mk.injEq]
      omega
    · have hz : s.total = 0 := by omega
      have hsz : s.success = 0 := by omega
      rw [List.foldl_cons]
      show t.foldl accStep (accStep (a, b) s) = _
      rw [show accStep (a, b) s = (a, b) from if_neg hpos]
      rw [ih ht]
      simp only [List.map_cons, List.sum_cons, hz, hsz, Prod.mk.injEq]
      omega

/-- C7: whenever every category's success count is at most its total (as
holds for every table the pipeline accumulates), the aggregator reports
`(Σ success / Σ total) * 100` exactly when `Σ total ≥
MIN_PREDICTIONS_COUNT`, reports exactly `0` otherwise (so a zero total
never divides), and returns the raw `Σ total` verbatim in both cases. -/
theorem C7_average_accuracy (ps : PatternStats)
    (h : ∀ s ∈ statsList ps, s.success ≤ s.total) :
    calculate_average_accuracy ps =
      (if MIN_PREDICTIONS_COUNT ≤ sumTotal ps
        then ((sumSuccess ps : ℚ) / (sumTotal ps : ℚ)) * 100
        else 0,
       sumTotal ps) := by
  unfold calculate_average_accuracy
  rw [foldl_accStep_eq (statsList ps) h 0 0]
  simp only [Nat.zero_add]
  unfold sumSuccess sumTotal
  split
  · rfl
  · rfl

/-- C7 witness: a table with totals `2,1,0,0` and successes `1,1,0,0`
(five predictions would need totals ≥ 3; here Σ total = 3 ≥ 3, so the
ratio is reported, and the raw total 3 is returned verbatim). -/
theorem C7_average_accuracy_witness :
    calculate_average_accuracy ⟨⟨2, 1⟩, ⟨1, 1⟩, ⟨0, 0⟩, ⟨0, 0⟩⟩ =
      (if MIN_PREDICTIONS_COUNT ≤ sumTotal ⟨⟨2, 1⟩, ⟨1, 1⟩, ⟨0, 0⟩, ⟨0, 0⟩⟩
        then ((sumSuccess ⟨⟨2, 1⟩, ⟨1, 1⟩, ⟨0, 0⟩, ⟨0, 0⟩⟩ : ℚ) /
              (sumTotal ⟨⟨2, 1⟩, ⟨1, 1⟩, ⟨0, 0⟩, ⟨0, 0⟩⟩ : ℚ)) * 100
        else 0,
       sumTotal ⟨⟨2, 1⟩, ⟨1, 1⟩, ⟨0, 0⟩, ⟨0, 0⟩⟩) :=
  C7_average_accuracy ⟨⟨2, 1⟩, ⟨1, 1⟩, ⟨0, 0⟩, ⟨0, 0⟩⟩ (by decide)

/-- The four `pattern_type` keys of the statistics dictionary. -/
inductive PatType where
  | Bull
  | Bear
  | L_Bull
  | L_Bear
deriving DecidableEq

/-- The type string handed to the simulator for each key. -/
def patTypeStr : PatType → List Char
  | .Bull => bullStr
  | .Bear => bearStr
  | .L_Bull => ['L', '_'] ++ bullStr
  | .L_Bear => ['L', '_'] ++ bearStr

/-- The per-row key computation of the statistics loop: standard rows
map to `Bull`/`Bear` according to the `"_Bull"` test on the pattern
string, logical rows map to their logical key, unclassified rows have no
key (the loop never visits them, as `pattern_data` is pre-filtered). -/
def patTypeOf (is_bull : Bool) : Category → Option PatType
  | .standard => some (if is_bull then .Bull else .Bear)
  | .logical_bull => some .L_Bull
  | .logical_bear => some .L_Bear
  | .noneCat => none

/-- `pattern_stats[pattern_type]['total'] += 1`. -/
def bumpTotal (ps : PatternStats) : PatType → PatternStats
  | .Bull => { ps with bull := ⟨ps.bull.total + 1, ps.bull.success⟩ }
  | .Bear => { ps with bear := ⟨ps.bear.total + 1, ps.bear.success⟩ }
  | .L_Bull => { ps with lbull := ⟨ps.lbull.total + 1, ps.lbull.success⟩ }
  | .L_Bear => { ps with lbear := ⟨ps.lbear.total + 1, ps.lbear.success⟩ }

/-- `pattern_stats[pattern_type]['success'] += 1`. -/
def bumpSuccess (ps : PatternStats) : PatType → PatternStats
  | .Bull => { ps with bull := ⟨ps.bull.total, ps.bull.success + 1⟩ }
  | .Bear => { ps with bear := ⟨ps.bear.total, ps.bear.success + 1⟩ }
  | .L_Bull => { ps with lbull := ⟨ps.lbull.total, ps.lbull.success + 1⟩ }
  | .L_Bear => { ps with lbear := ⟨ps.lbear.total, ps.lbear.success + 1⟩ }

/-- One iteration of the statistics loop over a classified occurrence
`(index, row, category)`: bump the key's total, then bump its success
when the performance analysis succeeds. -/
def tallyStep (perfFn : ℕ × Row → PatType → Bool) (ps : PatternStats)
    (o : ℕ × Row × Category) : PatternStats :=
  match patTypeOf (containsSub suffixBull o.2.1.candlestick_pattern) o.2.2 with
  | some pt =>
    let ps1 := bumpTotal ps pt
    if perfFn (o.1, o.2.1) pt then bumpSuccess ps1 pt else ps1
  | none => ps

/-- The zero-initialized statistics dictionary. -/
def initStats : PatternStats := ⟨⟨0, 0⟩, ⟨0, 0⟩, ⟨0, 0⟩, ⟨0, 0⟩⟩

/-- The whole statistics loop over the classified occurrences of one
candle. -/
def tally (perfFn : ℕ × Row → PatType → Bool)
    (occs : List (ℕ × Row × Category)) : PatternStats :=
  occs.foldl (tallyStep perfFn) initStats

lemma patTypeOf_isSome {b : Bool} {c : Category} (h : c ≠ Category.noneCat) :
    ∃ pt, patTypeOf b c = some pt := by
  cases c
  case noneCat => exact absurd rfl h
  all_goals exact ⟨_, rfl⟩

lemma sumTotal_bumpTotal (ps : PatternStats) (pt : PatType) :
    sumTotal (bumpTotal ps pt) = sumTotal ps + 1 := by
  cases pt <;> simp [sumTotal, statsList, bumpTotal] <;> omega

lemma sumTotal_bumpSuccess (ps : PatternStats) (pt : PatType) :
    sumTotal (bumpSuccess ps pt) = sumTotal ps := by
  cases pt <;> simp [sumTotal, statsList, bumpSuccess]

lemma tallyStep_eq_some (perfFn : ℕ × Row → PatType → Bool)
    (ps : PatternStats) (o : ℕ × Row × Category) (pt : PatType)
    (hpt : patTypeOf (containsSub suffixBull o.2.1.candlestick_pattern) o.2.2 = some pt) :
    tallyStep perfFn ps o =
      if perfFn (o.1, o.2.1) pt then bumpSuccess (bumpTotal ps pt) pt
      else bumpTotal ps pt := by
  unfold tallyStep
  rw [hpt]

lemma sumTotal_tallyStep (perfFn : ℕ × Row → PatType → Bool)
    (ps : PatternStats) (o : ℕ × Row × Category) (h : o.2.2 ≠ Category.noneCat) :
    sumTotal (tallyStep perfFn ps o) = sumTotal ps + 1 := by
  obtain ⟨pt, hpt⟩ := patTypeOf_isSome (b := containsSub suffixBull o.2.1.candlestick_pattern) h
  rw [tallyStep_eq_some perfFn ps o pt hpt]
  cases hperf : perfFn (o.1, o.2.1) pt
  · rw [if_neg Bool.false_ne_true]
    exact sumTotal_bumpTotal ps pt
  · rw [if_pos rfl]
    rw [sumTotal_bumpSuccess, sumTotal_bumpTotal]

lemma statsLe_tallyStep (perfFn : ℕ × Row → PatType → Bool)
    (ps : PatternStats) (o : ℕ × Row × Category)
    (hps : ∀ s ∈ statsList ps, s.success ≤ s.total) :
    ∀ s ∈ statsList (tallyStep perfFn ps o), s.success ≤ s.total := by
  cases hpt : patTypeOf (containsSub suffixBull o.2.1.candlestick_pattern) o.2.2
  · unfold tallyStep
    rw [hpt]
    exact hps
  · rename_i pt
    rw [tallyStep_eq_some perfFn ps o pt hpt]
    simp only [statsList, List.forall_mem_cons] at hps
    obtain ⟨h1, h2, h3, h4, -⟩ := hps
    cases pt <;> split <;>
      simp only [bumpTotal, bumpSuccess, statsList, List.forall_mem_cons] <;>
      exact ⟨by omega, by omega, by omega, by omega, List.forall_mem_nil _⟩

lemma tally_foldl_sumTotal (perfFn : ℕ × Row → PatType → Bool)
    (occs : List (ℕ × Row × Category)) (h : ∀ o ∈ occs, o.2.2 ≠ Category.noneCat) :
    ∀ ps, sumTotal (occs.foldl (tallyStep perfFn) ps) = sumTotal ps + occs.length := by
  induction occs with
  | nil => intro ps; simp
  | cons o t ih =>
    intro ps
    rw [List.foldl_cons]
    rw [ih (fun x hx => h x (List.mem_cons_of_mem o hx))]
    rw [sumTotal_tallyStep perfFn ps o (h o (List.mem_cons_self o t))]
    simp only [List.length_cons]
    omega

lemma tally_foldl_statsLe (perfFn : ℕ × Row → PatType → Bool)
    (occs : List (ℕ × Row × Category)) :
    ∀ ps, (∀ s ∈ statsList ps, s.success ≤ s.total) →
      ∀ s ∈ statsList (occs.foldl (tallyStep perfFn) ps), s.success ≤ s.total := by
  induction occs with
  | nil => intro ps hps; simpa using hps
  | cons o t ih =>
    intro ps hps
    rw [List.foldl_cons]
    exact ih _ (statsLe_tallyStep perfFn ps o hps)

/-- On any table with componentwise `success ≤ total`, the reported
accuracy lies between 0 and 100. -/
lemma accuracy_bounds (ps : PatternStats)
    (h : ∀ s ∈ statsList ps, s.success ≤ s.total) :
    0 ≤ (calculate_average_accuracy ps).1 ∧ (calculate_average_accuracy ps).1 ≤ 100 := by
  unfold calculate_average_accuracy
  rw [foldl_accStep_eq (statsList ps) h 0 0]
  simp only [Nat.zero_add]
  by_cases hc : MIN_PREDICTIONS_COUNT ≤ ((statsList ps).map CatStats.total).sum
  · rw [if_pos hc]
    have hST : ((statsList ps).map CatStats.success).sum ≤
        ((statsList ps).map CatStats.total).sum := by
      simp only [statsList, List.forall_mem_cons, List.forall_mem_nil] at h
      simp only [statsList, List.map_cons, List.map_nil, List.sum_cons, List.sum_nil]
      omega
    have hTpos : (0 : ℚ) < (((statsList ps).map CatStats.total).sum : ℚ) := by
      have : 0 < ((statsList ps).map CatStats.total).sum := by
        unfold MIN_PREDICTIONS_COUNT at hc
        omega
      exact_mod_cast this
    constructor
    · positivity
    · have h1 : ((((statsList ps).map CatStats.success).sum : ℚ) /
          (((statsList ps).map CatStats.total).sum : ℚ)) ≤ 1 :=
        (div_le_one hTpos).mpr (by exact_mod_cast hST)
      calc ((((statsList ps).map CatStats.success).sum : ℚ) /
            (((statsList ps).map CatStats.total).sum : ℚ)) * 100
          ≤ 1 * 100 := by
            apply mul_le_mul_of_nonneg_right h1
            norm_num
        _ = 100 := by norm_num
  · rw [if_neg hc]
    norm_num

/-- C10: over any list of classified occurrences, the four totals sum to
the number of occurrences (each occurrence bumps exactly one category's
total), every category satisfies `success ≤ total` (success is bumped at
most once per occurrence, in the same category), and the reported
average accuracy always lies in `[0, 100]`. -/
theorem C10_tally_invariants (perfFn : ℕ × Row → PatType → Bool)
    (occs : List (ℕ × Row × Category))
    (h : ∀ o ∈ occs, o.2.2 ≠ Category.noneCat) :
    sumTotal (tally perfFn occs) = occs.length ∧
    (∀ s ∈ statsList (tally perfFn occs), s.success ≤ s.total) ∧
    0 ≤ (calculate_average_accuracy (tally perfFn occs)).1 ∧
    (calculate_average_accuracy (tally perfFn occs)).1 ≤ 100 := by
  have hle : ∀ s ∈ statsList (tally perfFn occs), s.success ≤ s.total :=
    tally_foldl_statsLe perfFn occs initStats (by decide)
  refine ⟨?_, hle, accuracy_bounds _ hle⟩
  unfold tally
  rw [tally_foldl_sumTotal perfFn occs h initStats]
  simp [sumTotal, statsList, initStats]

/-- Concrete classified occurrence used by the C10 witness. -/
def exOcc : ℕ × Row × Category :=
  (0, ⟨⟨0, 1, 1, 1, 1, 0⟩, ['X', '_', 'B', 'u', 'l', 'l']⟩, Category.standard)

/-- C10 witness: the invariants instantiated on a single standard
bullish occurrence with an always-successful performance oracle. -/
theorem C10_tally_invariants_witness :
    sumTotal (tally (fun _ _ => true) [exOcc]) = [exOcc].length ∧
    (∀ s ∈ statsList (tally (fun _ _ => true) [exOcc]), s.success ≤ s.total) ∧
    0 ≤ (calculate_average_accuracy (tally (fun _ _ => true) [exOcc])).1 ∧
    (calculate_average_accuracy (tally (fun _ _ => true) [exOcc])).1 ≤ 100 :=
  C10_tally_invariants (fun _ _ => true) [exOcc] (by decide)

/-- One `(combination, candle_name)` result examined by the grid
search: its reported accuracy and prediction count, plus an identifier
standing for the candle name and parameter dictionary stored in
`best_params`. -/
structure OptResult where
  avg_accuracy : ℚ
  total_predictions : ℕ
  id : ℕ
deriving DecidableEq

/-- The retention gate of the search loop:
`avg_accuracy >= MIN_ACCURACY_THRESHOLD and total_predictions >= MIN_PREDICTIONS_COUNT`. -/
def keptRes (r : OptResult) : Bool :=
  decide (MIN_ACCURACY_THRESHOLD ≤ r.avg_accuracy) &&
  decide (MIN_PREDICTIONS_COUNT ≤ r.total_predictions)

/-- One result's effect on `(best_params, best_accuracy)`: the
strictly-greater update sits inside the retention branch of the source,
so non-kept results never touch the best-so-far state. -/
def bestStep (s : Option OptResult × ℚ) (r : OptResult) : Option OptResult × ℚ :=
  if keptRes r then
    if s.2 < r.avg_accuracy then (some r, r.avg_accuracy) else s
  else s

/-- The best-so-far state after a prefix of the grid enumeration,
starting from `best_accuracy = 0` and no `best_params`. -/
def runBest (rs : List OptResult) : Option OptResult × ℚ :=
  rs.foldl bestStep (none, 0)

/-- Maximum accuracy of the kept results of `rs`, folded from base `a`. -/
def maxKeptFrom (a : ℚ) (rs : List OptResult) : ℚ :=
  ((rs.filter keptRes).map OptResult.avg_accuracy).foldl max a

/-- Maximum accuracy of the kept results of `rs` (base 0, the source's
initial `best_accuracy`). -/
def maxKeptAcc (rs : List OptResult) : ℚ := maxKeptFrom 0 rs

/-- Maximum accuracy over all examined results (the claim's notion). -/
def maxAllAcc (rs : List OptResult) : ℚ := (rs.map OptResult.avg_accuracy).foldl max 0

/-- The first result attaining the greatest accuracy among ALL examined
results — what the claim says the engine tracks. -/
def bestAmongAll (rs : List OptResult) : Option OptResult :=
  rs.find? (fun r => decide (maxAllAcc rs ≤ r.avg_accuracy))

lemma le_foldl_max (l : List ℚ) : ∀ a : ℚ, a ≤ l.foldl max a := by
  induction l with
  | nil => intro a; simp
  | cons x t ih =>
    intro a
    rw [List.foldl_cons]
    exact le_trans (le_max_left a x) (ih (max a x))

lemma mem_le_foldl_max (l : List ℚ) : ∀ (a x : ℚ), x ∈ l → x ≤ l.foldl max a := by
  induction l with
  | nil => intro a x hx; exact absurd hx (List.not_mem_nil x)
  | cons y t ih =>
    intro a x hx
    rw [List.foldl_cons]
    rcases List.mem_cons.mp hx with h | h
    · rw [h]
      exact le_trans (le_max_right a y) (le_foldl_max t (max a y))
    · exact ih (max a y) x h

lemma keptRes_acc_ge {r : OptResult} (h : keptRes r = true) :
    MIN_ACCURACY_THRESHOLD ≤ r.avg_accuracy := by
  unfold keptRes at h
  rw [Bool.and_eq_true, decide_eq_true_eq, decide_eq_true_eq] at h
  exact h.1

/-- Full characterization of the best-so-far fold from an arbitrary
state: the final accuracy is the max of the base and the kept
accuracies, and the held result is replaced exactly when some kept
result strictly beats the base, by the first kept result attaining the
new maximum. -/
lemma foldl_bestStep_eq (rs : List OptResult) :
    ∀ (b : Option OptResult) (a : ℚ),
      rs.foldl bestStep (b, a) =
        (if a < maxKeptFrom a rs
          then (rs.filter keptRes).find? (fun r => decide (maxKeptFrom a rs ≤ r.avg_accuracy))
          else b,
         maxKeptFrom a rs) := by
  induction rs with
  | nil =>
    intro b a
    simp [maxKeptFrom]
  | cons r t ih =>
    intro b a
    rw [List.foldl_cons]
    by_cases hk : keptRes r = true
    · have hfil : (r :: t).filter keptRes = r :: t.filter keptRes :=
        List.filter_cons_of_pos hk
      have hM : maxKeptFrom a (r :: t) = maxKeptFrom (max a r.avg_accuracy) t := by
        unfold maxKeptFrom
        rw [hfil, List.map_cons, List.foldl_cons]
      by_cases hlt : a < r.avg_accuracy
      · have hstep : bestStep (b, a) r = (some r, r.avg_accuracy) := by
          unfold bestStep
          rw [if_pos hk, if_pos hlt]
        have hmax : max a r.avg_accuracy = r.avg_accuracy := max_eq_right (le_of_lt hlt)
        rw [hstep, ih (some r) r.avg_accuracy]
        rw [hM, hmax]
        have hbase : r.avg_accuracy ≤ maxKeptFrom r.avg_accuracy t := by
          unfold maxKeptFrom
          exact le_foldl_max _ _
        rw [if_pos (lt_of_lt_of_le hlt hbase), hfil]
        by_cases hstrict : r.avg_accuracy < maxKeptFrom r.avg_accuracy t
        · rw [if_pos hstrict]
          rw [List.find?_cons_of_neg _
            (by simp only [decide_eq_true_eq]; exact not_le.mpr hstrict)]
        · have heq : maxKeptFrom r.avg_accuracy t = r.avg_accuracy :=
            le_antisymm (not_lt.mp hstrict) hbase
          rw [if_neg hstrict]
          rw [List.find?_cons_of_pos _
            (by simp only [decide_eq_true_eq]; exact le_of_eq heq)]
      · have hstep : bestStep (b, a) r = (b, a) := by
          unfold bestStep
          rw [if_pos hk, if_neg hlt]
        have hmax : max a r.avg_accuracy = a := max_eq_left (not_lt.mp hlt)
        rw [hstep, ih b a, hM, hmax, hfil]
        by_cases hlt2 : a < maxKeptFrom a t
        · rw [if_pos hlt2, if_pos hlt2]
          rw [List.find?_cons_of_neg _
            (by simp only [decide_eq_true_eq]
                exact not_le.mpr (lt_of_le_of_lt (not_lt.mp hlt) hlt2))]
        · rw [if_neg hlt2, if_neg hlt2]
    · have hk' : keptRes r = false := by
        cases hkk : keptRes r
        · rfl
        · exact absurd hkk hk
      have hfil : (r :: t).filter keptRes = t.filter keptRes :=
        List.filter_cons_of_neg (by rw [hk']; exact Bool.false_ne_true)
      have hstep : bestStep (b, a) r = (b, a) := by
        unfold bestStep
        rw [hk']
        simp
      have hM : maxKeptFrom a (r :: t) = maxKeptFrom a t := by
        unfold maxKeptFrom
        rw [hfil]
      rw [hstep, ih b a, hM, hfil]

/-- C3 (amended): after any prefix of the grid enumeration, the
best-so-far accuracy is the greatest accuracy among the KEPT results
examined so far (0 when none is kept), and the held best result is the
first kept result attaining it (none when no result was kept) — the
strictly-greater update keeps the first among ties, and non-kept results
are never candidates, contrary to the claim's "not only among the kept
ones". -/
theorem C3_best_so_far (rs : List OptResult) :
    runBest rs =
      ((rs.filter keptRes).find? (fun r => decide (maxKeptAcc rs ≤ r.avg_accuracy)),
       maxKeptAcc rs) := by
  unfold runBest maxKeptAcc
  rw [foldl_bestStep_eq rs none 0]
  by_cases h0 : (0 : ℚ) < maxKeptFrom 0 rs
  · rw [if_pos h0]
  · rw [if_neg h0]
    have hnil : rs.filter keptRes = [] := by
      cases hfil : rs.filter keptRes with
      | nil => rfl
      | cons x l =>
        exfalso
        have hxmem : x ∈ rs.filter keptRes := by rw [hfil]; exact List.mem_cons_self x l
        have hxkept : keptRes x = true := (List.mem_filter.mp hxmem).2
        have hx60 : MIN_ACCURACY_THRESHOLD ≤ x.avg_accuracy := keptRes_acc_ge hxkept
        have hxle : x.avg_accuracy ≤ maxKeptFrom 0 rs := by
          unfold maxKeptFrom
          exact mem_le_foldl_max _ 0 x.avg_accuracy
            (List.mem_map.mpr ⟨x, hxmem, rfl⟩)
        have : MIN_ACCURACY_THRESHOLD ≤ (0 : ℚ) :=
          le_trans hx60 (le_trans hxle (not_lt.mp h0))
        norm_num [MIN_ACCURACY_THRESHOLD] at this
    rw [hnil]
    rfl

/-- The single examined result of the C3 counterexample: accuracy 50%
from 5 predictions (realizable, not kept since 50 < 60). -/
def exResult : OptResult := ⟨50, 5, 0⟩

/-- C3 counterexample: after examining only `exResult`, the result with
the greatest accuracy among ALL examined results is `exResult` itself
(accuracy 50), but the engine's best-so-far still holds no result and
accuracy 0 — the update happens only inside the retention branch, so the
best is tracked among kept results only. -/
theorem C3_counterexample :
    bestAmongAll [exResult] = some exResult ∧
    runBest [exResult] = (none, 0) ∧
    (runBest [exResult]).1 ≠ bestAmongAll [exResult] := by
  have hall : bestAmongAll [exResult] = some exResult := by
    unfold bestAmongAll maxAllAcc exResult
    rw [List.find?_cons_of_pos]
    rw [decide_eq_true_eq]
    show (List.foldl max 0 [(50 : ℚ)]) ≤ 50
    rw [List.foldl_cons, List.foldl_nil]
    exact max_le (by norm_num) le_rfl
  have hrun : runBest [exResult] = (none, 0) := by
    unfold runBest
    rw [List.foldl_cons, List.foldl_nil]
    unfold bestStep keptRes exResult
    norm_num [MIN_ACCURACY_THRESHOLD]
  refine ⟨hall, hrun, ?_⟩
  rw [hall, hrun]
  simp

/-- The classified rows of the series (`all_filtered_patterns`): each
row with a fired pattern that received a category other than none,
together with its positional index (`pattern_row.name`). -/
def classifiedRows (rows : List Row) (sup res : List (ℚ × ℤ)) (prox : ℚ) :
    List (ℕ × Row × Category) :=
  rows.enum.filterMap fun ir =>
    if rowCategory sup res prox ir.2 = Category.noneCat then none
    else some (ir.1, ir.2, rowCategory sup res prox ir.2)

/-- The simulator call of the statistics loop, as a function of a
classified occurrence's index/row and its statistics key. -/
def perfOf (bars : List Bar) (target_percent stop_percent : ℚ)
    (o : ℕ × Row) (pt : PatType) : Bool :=
  analyze_pattern_performance bars o.1 o.2.bar.close (patTypeStr pt)
    target_percent stop_percent

/-- The per-candle entry stored in `results_by_candle`. -/
structure CandleResult where
  pattern_stats : PatternStats
  avg_accuracy : ℚ
  total_predictions : ℕ
deriving DecidableEq

/-- The `pattern_data` selection for one candle name: the classified
rows whose pattern string contains the candle name
(`str.contains(candle)`), with the levels of the current parameters. -/
def patternDataFor (rows : List Row) (extrema_order min_touches : ℕ)
    (touch_threshold level_proximity_threshold : ℚ) (candle : List Char) :
    List (ℕ × Row × Category) :=
  (classifiedRows rows
      (find_extreme_levels (rows.map Row.bar) extrema_order min_touches touch_threshold).1
      (find_extreme_levels (rows.map Row.bar) extrema_order min_touches touch_threshold).2
      level_proximity_threshold).filter
    fun o => containsSub candle o.2.1.candlestick_pattern

/-- One candle's contribution to `results_by_candle`: skipped entirely
when its `pattern_data` is empty, otherwise the tallied statistics and
the aggregated accuracy (levels and classification are pure, so they
are written here as recomputations of the same values the source
computes once per combination). -/
def candleResult (rows : List Row) (extrema_order min_touches : ℕ)
    (touch_threshold level_proximity_threshold target_percent stop_percent : ℚ)
    (candle : List Char) : Option (List Char × CandleResult) :=
  if (patternDataFor rows extrema_order min_touches touch_threshold
        level_proximity_threshold candle).isEmpty then none
  else
    some (candle,
      ⟨tally (perfOf (rows.map Row.bar) target_percent stop_percent)
          (patternDataFor rows extrema_order min_touches touch_threshold
            level_proximity_threshold candle),
       (calculate_average_accuracy (tally (perfOf (rows.map Row.bar) target_percent stop_percent)
          (patternDataFor rows extrema_order min_touches touch_threshold
            level_proximity_threshold candle))).1,
       (calculate_average_accuracy (tally (perfOf (rows.map Row.bar) target_percent stop_percent)
          (patternDataFor rows extrema_order min_touches touch_threshold
            level_proximity_threshold candle))).2⟩)

/-- `process_crypto_data` for one parameter combination: the level sets
and the per-candle results, in candle-catalog order. -/
def process_crypto_data (rows : List Row) (extrema_order min_touches : ℕ)
    (touch_threshold level_proximity_threshold target_percent stop_percent : ℚ)
    (candle_names : List (List Char)) :
    List (ℚ × ℤ) × List (ℚ × ℤ) × List (List Char × CandleResult) :=
  ((find_extreme_levels (rows.map Row.bar) extrema_order min_touches touch_threshold).1,
   (find_extreme_levels (rows.map Row.bar) extrema_order min_touches touch_threshold).2,
   candle_names.filterMap (candleResult rows extrema_order min_touches touch_threshold
     level_proximity_threshold target_percent stop_percent))

/-- One CSV line of `optimization_results.csv`. -/
structure CsvRow where
  extrema_order : ℕ
  min_touches : ℕ
  touch_threshold : ℚ
  level_proximity_threshold : ℚ
  target_percent : ℚ
  stop_percent : ℚ
  candle_name : List Char
  avg_accuracy : ℚ
  total_predictions : ℕ
deriving DecidableEq

/-- The CSV line written for one `results_by_candle` entry. -/
def toCsvRow (extrema_order min_touches : ℕ)
    (touch_threshold level_proximity_threshold target_percent stop_percent : ℚ)
    (cr : List Char × CandleResult) : CsvRow :=
  ⟨extrema_order, min_touches, touch_threshold, level_proximity_threshold,
   target_percent, stop_percent, cr.1, cr.2.avg_accuracy, cr.2.total_predictions⟩

/-- The CSV lines appended for one parameter combination: one per entry
of `results_by_candle` (the write happens before the retention check,
so it does not depend on keeping). -/
def emitRows (rows : List Row) (extrema_order min_touches : ℕ)
    (touch_threshold level_proximity_threshold target_percent stop_percent : ℚ)
    (candle_names : List (List Char)) : List CsvRow :=
  (process_crypto_data rows extrema_order min_touches touch_threshold
      level_proximity_threshold target_percent stop_percent candle_names).2.2.map
    (toCsvRow extrema_order min_touches touch_threshold level_proximity_threshold
      target_percent stop_percent)

lemma candleResult_none_iff (rows : List Row) (eo mt : ℕ) (tt lpt tgt stp : ℚ)
    (n : List Char) :
    candleResult rows eo mt tt lpt tgt stp n = none ↔
      (patternDataFor rows eo mt tt lpt n).isEmpty = true := by
  unfold candleResult
  cases hemp : (patternDataFor rows eo mt tt lpt n).isEmpty
  · simp
  · simp

lemma candleResult_some_fst {rows : List Row} {eo mt : ℕ} {tt lpt tgt stp : ℚ}
    {n : List Char} {x : List Char × CandleResult}
    (h : candleResult rows eo mt tt lpt tgt stp n = some x) : x.1 = n := by
  unfold candleResult at h
  by_cases hemp : (patternDataFor rows eo mt tt lpt n).isEmpty = true
  · rw [if_pos hemp] at h
    exact absurd h (by simp)
  · rw [if_neg hemp] at h
    have := Option.some.inj h
    rw [← this]

lemma emitRows_eq (rows : List Row) (eo mt : ℕ) (tt lpt tgt stp : ℚ)
    (names : List (List Char)) :
    emitRows rows eo mt tt lpt tgt stp names =
      (names.filterMap (candleResult rows eo mt tt lpt tgt stp)).map
        (toCsvRow eo mt tt lpt tgt stp) := rfl

lemma emit_count_not_mem (rows : List Row) (eo mt : ℕ) (tt lpt tgt stp : ℚ)
    (c : List Char) :
    ∀ names : List (List Char), c ∉ names →
      (((names.filterMap (candleResult rows eo mt tt lpt tgt stp)).map
          (toCsvRow eo mt tt lpt tgt stp)).filter
        (fun r => decide (r.candle_name = c))).length = 0 := by
  intro names
  induction names with
  | nil => intro _; rfl
  | cons n t ih =>
    intro hc
    have hcn : c ≠ n := fun h => hc (h ▸ List.mem_cons_self n t)
    have hct : c ∉ t := fun h => hc (List.mem_cons_of_mem n h)
    rw [List.filterMap_cons]
    cases hg : candleResult rows eo mt tt lpt tgt stp n
    · exact ih hct
    · rename_i x
      rw [List.map_cons, List.filter_cons]
      rw [if_neg (by
        simp only [decide_eq_true_eq]
        show ¬ (toCsvRow eo mt tt lpt tgt stp x).candle_name = c
        have : (toCsvRow eo mt tt lpt tgt stp x).candle_name = n :=
          candleResult_some_fst hg
        rw [this]
        exact fun h => hcn h.symm)]
      exact ih hct

/-- C4 (amended): for every parameter combination, exactly one CSV row
is emitted per recognized candle name whose `pattern_data` is nonempty —
regardless of whether the result is kept — and no row at all for a
candle name with no classified occurrence, since `results_by_candle`
only receives candles with nonempty `pattern_data`. -/
theorem C4_one_row_per_active_candle (rows : List Row) (eo mt : ℕ)
    (tt lpt tgt stp : ℚ) (c : List Char) :
    ∀ names : List (List Char), names.Nodup → c ∈ names →
      ((emitRows rows eo mt tt lpt tgt stp names).filter
          (fun r => decide (r.candle_name = c))).length =
        if (patternDataFor rows eo mt tt lpt c).isEmpty then 0 else 1 := by
  intro names
  induction names with
  | nil => intro _ hc; exact absurd hc (List.not_mem_nil c)
  | cons n t ih =>
    intro hnd hc
    rw [List.nodup_cons] at hnd
    rw [emitRows_eq, List.filterMap_cons]
    by_cases hcn : c = n
    · subst hcn
      cases hg : candleResult rows eo mt tt lpt tgt stp c
      · have hemp : (patternDataFor rows eo mt tt lpt c).isEmpty = true :=
          (candleResult_none_iff rows eo mt tt lpt tgt stp c).mp hg
        rw [if_pos hemp]
        exact emit_count_not_mem rows eo mt tt lpt tgt stp c t hnd.1
      · rename_i x
        have hemp : ¬ (patternDataFor rows eo mt tt lpt c).isEmpty = true := by
          intro hcon
          rw [(candleResult_none_iff rows eo mt tt lpt tgt stp c).mpr hcon] at hg
          exact absurd hg (by simp)
        rw [if_neg hemp]
        rw [List.map_cons, List.filter_cons]
        rw [if_pos (by
          simp only [decide_eq_true_eq]
          show (toCsvRow eo mt tt lpt tgt stp x).candle_name = c
          exact candleResult_some_fst hg)]
        rw [List.length_cons]
        rw [emit_count_not_mem rows eo mt tt lpt tgt stp c t hnd.1]
    · have hct : c ∈ t := by
        rcases List.mem_cons.mp hc with h | h
        · exact absurd h hcn
        · exact h
      have htail := ih hnd.2 hct
      rw [emitRows_eq] at htail
      cases hg : candleResult rows eo mt tt lpt tgt stp n
      · exact htail
      · rename_i x
        rw [List.map_cons, List.filter_cons]
        rw [if_neg (by
          simp only [decide_eq_true_eq]
          show ¬ (toCsvRow eo mt tt lpt tgt stp x).candle_name = c
          have : (toCsvRow eo mt tt lpt tgt stp x).candle_name = n :=
            candleResult_some_fst hg
          rw [this]
          exact fun h => hcn h.symm)]
        exact htail

/-- The two-bar series of the C4 counterexample: the pattern `CDLX`
fires (bullishly) on the second bar, but with no levels in range no
occurrence is classified. -/
def exRowsC4 : List Row :=
  [⟨⟨0, 1, 1, 1, 1, 0⟩, []⟩,
   ⟨⟨1, 1, 1, 1, 1, 0⟩, ['C', 'D', 'L', 'X', '_', 'B', 'u', 'l', 'l']⟩]

/-- The candle-catalog name of the C4 counterexample. -/
def cdlxName : List Char := ['C', 'D', 'L', 'X']

/-- C4 counterexample: the candle `CDLX` is recognized and even fires on
a bar of the series, yet the combination emits NO result row for it —
its `pattern_data` is empty (no levels, hence no classified occurrence),
so it never enters `results_by_candle` and the CSV gets zero rows
instead of the claimed exactly one. -/
theorem C4_counterexample :
    (∃ r ∈ exRowsC4, containsSub cdlxName r.candlestick_pattern = true) ∧
    emitRows exRowsC4 1 1 1 1 1 1 [cdlxName] = [] ∧
    ((emitRows exRowsC4 1 1 1 1 1 1 [cdlxName]).filter
        (fun r => decide (r.candle_name = cdlxName))).length ≠ 1 := by
  refine ⟨by decide, by decide, by decide⟩

/-- C4 witness: the amended count theorem instantiated at the concrete
series and singleton catalog (empty `pattern_data`, so zero rows). -/
theorem C4_one_row_per_active_candle_witness :
    ((emitRows exRowsC4 1 1 1 1 1 1 [cdlxName]).filter
        (fun r => decide (r.candle_name = cdlxName))).length =
      if (patternDataFor exRowsC4 1 1 1 1 cdlxName).isEmpty then 0 else 1 :=
  C4_one_row_per_active_candle exRowsC4 1 1 1 1 1 1 cdlxName [cdlxName]
    (by decide) (by decide)

/-- One grid cell's observable data for the error-handling analysis: its
reported numbers plus the outcomes of its two side effects — the CSV
append (executed outside any try/except) and the body of the chart
try-block (whose exceptions the source catches and converts to a
`False` return). -/
structure GridCell where
  avg_accuracy : ℚ
  total_predictions : ℕ
  csvWrite : Except String Unit
  chartBody : Except String Bool

/-- The retention gate, as in the source's search loop. -/
def keptCell (c : GridCell) : Bool :=
  decide (MIN_ACCURACY_THRESHOLD ≤ c.avg_accuracy) &&
  decide (MIN_PREDICTIONS_COUNT ≤ c.total_predictions)

/-- `create_and_save_chart`: inside the accuracy/predictions gate the
whole body runs under `try`; an exception is caught, logged, and turned
into a `False` return value.  Outside the gate nothing runs. -/
def create_and_save_chart (c : GridCell) : Bool :=
  if keptCell c then
    match c.chartBody with
    | .ok saved => saved
    | .error _ => false
  else false

/-- One iteration of the search loop over a result cell: first the CSV
append (uncaught — an error propagates), then, for kept cells, the chart
attempt, whose boolean feeds the `saved_charts` counter. -/
def gridStep (saved : ℕ) (c : GridCell) : Except String ℕ :=
  match c.csvWrite with
  | .error e => .error e
  | .ok _ =>
    if keptCell c then
      if create_and_save_chart c then .ok (saved + 1) else .ok saved
    else .ok saved

/-- The search loop over the remaining cells, threading the
`saved_charts` counter; an uncaught exception aborts the whole run. -/
def runGrid : List GridCell → ℕ → Except String ℕ
  | [], saved => .ok saved
  | c :: rest, saved =>
    match gridStep saved c with
    | .error e => .error e
    | .ok s => runGrid rest s

/-- The kept cell of the C8 counterexample: good numbers, but its CSV
append raises. -/
def badCsvCell : GridCell := ⟨70, 5, .error "io error", .ok true⟩

/-- C8 counterexample: a kept result whose report (CSV append) side
effect raises an error aborts the grid search — the run returns the
error instead of completing, because only the chart side effect sits
inside a try/except. -/
theorem C8_counterexample :
    keptCell badCsvCell = true ∧
    runGrid [badCsvCell] 0 = .error "io error" ∧
    ¬ ∃ n : ℕ, runGrid [badCsvCell] 0 = Except.ok n := by
  refine ⟨rfl, rfl, ?_⟩
  rintro ⟨n, hn⟩
  rw [show runGrid [badCsvCell] 0 = .error "io error" from rfl] at hn
  exact absurd hn (by simp)

lemma runGrid_ok_of_csv_ok :
    ∀ (cells : List GridCell), (∀ c ∈ cells, c.csvWrite = Except.ok ()) →
      ∀ saved : ℕ, ∃ n, runGrid cells saved = Except.ok n := by
  intro cells
  induction cells with
  | nil => intro _ saved; exact ⟨saved, rfl⟩
  | cons c rest ih =>
    intro h saved
    have hc : c.csvWrite = Except.ok () := h c (List.mem_cons_self c rest)
    have hrest : ∀ x ∈ rest, x.csvWrite = Except.ok () :=
      fun x hx => h x (List.mem_cons_of_mem c hx)
    show ∃ n, runGrid (c :: rest) saved = Except.ok n
    unfold runGrid gridStep
    rw [hc]
    by_cases hk : keptCell c = true
    · rw [if_pos hk]
      cases hchart : create_and_save_chart c
      · rw [if_neg Bool.false_ne_true]
        exact ih hrest saved
      · rw [if_pos rfl]
        exact ih hrest (saved + 1)
    · rw [if_neg hk]
      exact ih hrest saved

/-- C8 (amended): an error inside the chart side effect is caught (the
chart call just reports `false`) and the grid search still completes
over every cell, for any chart outcomes — but this protection does not
extend to the report (CSV append) side effect: the search completes only
when every cell's CSV append succeeds, and a failing append aborts it
(see the counterexample). -/
theorem C8_error_handling (cells : List GridCell)
    (hcsv : ∀ c ∈ cells, c.csvWrite = Except.ok ()) :
    (∃ n, runGrid cells 0 = Except.ok n) ∧
    (∀ (c : GridCell) (e : String), c.chartBody = Except.error e →
      create_and_save_chart c = false) := by
  refine ⟨runGrid_ok_of_csv_ok cells hcsv 0, ?_⟩
  intro c e hc
  unfold create_and_save_chart
  rw [hc]
  by_cases hk : keptCell c = true
  · rw [if_pos hk]
  · rw [if_neg hk]

/-- C8 witness: a kept cell whose chart body raises does not abort the
search — the run completes with zero saved charts, and its chart call
reports `false`. -/
theorem C8_error_handling_witness :
    (∃ n, runGrid [(⟨70, 5, .ok (), .error "render failure"⟩ : GridCell)] 0 = Except.ok n) ∧
    (∀ (c : GridCell) (e : String), c.chartBody = Except.error e →
      create_and_save_chart c = false) :=
  C8_error_handling [⟨70, 5, .ok (), .error "render failure"⟩]
    (by intro c hc; rw [List.mem_singleton] at hc; subst hc; rfl)
